import Mathlib

/-!
# Verification of the custom one-pod-per-node scheduler

Shallow embedding of `src/custom_scheduler.py`: the node-occupancy tracker
(`node_pod_count` dict), priority extraction, available-node search,
preemption-victim selection, pod binding/eviction, the per-pod scheduling
routine and the per-event dispatch of the watch loop.

Modelling conventions:
* Python's `dict` of node name to count is an association list
  `List (String × Int)`; `dictFind` is `d[k]` (returning `none` where Python
  raises `KeyError`), `dictGetD` is `d.get(k, default)`, `dictSet` is
  `d[k] = v` (update in place, append when the key is new, as Python's
  insertion-ordered dicts do).
* Python exceptions escaping a piece of code are modelled by `PyResult`:
  `.ok` is a normal return, `.exn` a raised exception.
* Collaborator (Kubernetes API) calls are blocking I/O; each call's response
  is an explicit input (`World`), so a function of the embedding is a pure
  function of the scheduler state and the responses the API would give.
* A pod's `metadata.annotations` is carried with each value already put
  through Python's `int()`: `anns` maps the key to `some n` when the value
  parses as the integer `n` and to `none` when it would raise `ValueError`.
-/

/-- Normal return vs. raised Python exception. -/
inductive PyResult (α : Type) where
  | ok (a : α)
  | exn
deriving DecidableEq

/-- A scheduling unit (Kubernetes pod) as the scheduler reads it: name,
namespace, `spec.scheduler_name`, `spec.node_name` (absent = `none`), and the
pre-parsed `scheduler.priority` annotation map (see module docstring). -/
structure Pod where
  name : String
  namespc : String
  schedulerName : String
  nodeName : Option String
  anns : Option (List (String × Option Int))
deriving DecidableEq

/-- A watch-stream event: its type string (`"ADDED"`, `"DELETED"`, ...) and
the pod object it carries. -/
structure Event where
  type : String
  pod : Pod
deriving DecidableEq

/-- Response of the collaborator to a `create_namespaced_binding` call:
success, the idempotent "already bound to this node" conflict, or a genuine
error (carrying its message). The last two are both raised as exceptions by
the Python client. -/
inductive BindResp where
  | ok
  | alreadyBound
  | genuineErr (msg : String)
deriving DecidableEq

/-- The collaborator responses consulted while one pod is scheduled:
the binding-creation response, the `list_pod_for_all_namespaces` response
used by victim selection, and the `delete_namespaced_pod` response. -/
structure World where
  bindResp : BindResp
  listResp : PyResult (List Pod)
  deleteResp : PyResult Unit
deriving DecidableEq

/-- Python `d[k]`: the value at key `k`, `none` where Python raises
`KeyError`. First matching entry, as in a dict without duplicate keys. -/
def dictFind {α : Type} : List (String × α) → String → Option α
  | [], _ => none
  | (k', v) :: rest, k => if k = k' then some v else dictFind rest k

/-- Python `d.get(k, dflt)`. -/
def dictGetD {α : Type} (m : List (String × α)) (k : String) (dflt : α) : α :=
  (dictFind m k).getD dflt

/-- Python `d[k] = v`: replace the first entry for `k`, append when absent. -/
def dictSet {α : Type} : List (String × α) → String → α → List (String × α)
  | [], k, v => [(k, v)]
  | (k', v') :: rest, k, v =>
    if k = k' then (k', v) :: rest else (k', v') :: dictSet rest k v

/-- Python `d[k] += 1` on the count dict: `KeyError` when `k` is absent. -/
def dictIncr (m : List (String × Int)) (k : String) :
    PyResult (List (String × Int)) :=
  match dictFind m k with
  | some v => .ok (dictSet m k (v + 1))
  | none => .exn

/-- Python truthiness of an optional string: `None` and `""` are falsy. -/
def truthy : Option String → Bool
  | none => false
  | some s => decide (s ≠ "")

/-- `_get_pod_priority` (custom_scheduler.py:62-69): the
`scheduler.priority` annotation parsed as an int, defaulting to 0 when
annotations are missing, the key is absent, or `int()` raises. -/
def getPodPriority (pod : Pod) : Int :=
  match pod.anns with
  | some anns =>
    match dictFind anns "scheduler.priority" with
    | some (some n) => n
    | some none => 0
    | none => 0
  | none => 0

/-- `_find_available_node` (custom_scheduler.py:71-76): the first node in
registry order whose tracked count (`.get(node, 0)`) is 0. -/
def findAvailableNode : List String → List (String × Int) → Option String
  | [], _ => none
  | n :: rest, counts =>
    if dictGetD counts n 0 = 0 then some n else findAvailableNode rest counts

/-- State carried by `_find_preemptible_node`'s loops:
`(best_node, best_pod_to_preempt, lowest_priority)`, with
`none` for the initial `float('inf')`. -/
abbrev PreemptSt := Option String × Option Pod × Option Int

/-- `existing_priority < lowest_priority` where `none` is `float('inf')`. -/
def ltInfB (x : Int) : Option Int → Bool
  | none => true
  | some v => decide (x < v)

/-- Inner loop of `_find_preemptible_node` (custom_scheduler.py:100-105):
fold over the pods of one node, updating the best candidate when the new
pod's priority beats the existing pod's and the existing pod's priority is
strictly below the current lowest. -/
def innerLoop (newPriority : Int) (node : String) :
    List Pod → PreemptSt → PreemptSt
  | [], s => s
  | p :: rest, s =>
    if decide (getPodPriority p < newPriority) && ltInfB (getPodPriority p) s.2.2 then
      innerLoop newPriority node rest (some node, some p, some (getPodPriority p))
    else
      innerLoop newPriority node rest s

/-- Outer loop of `_find_preemptible_node` (custom_scheduler.py:90-105):
for each registry node, filter the listing to this scheduler's pods bound to
that node (`continue` when there are none) and run the inner loop. -/
def outerLoop (name : String) (newPriority : Int) (allPods : List Pod) :
    List String → PreemptSt → PreemptSt
  | [], s => s
  | n :: rest, s =>
    let nodePods := allPods.filter
      (fun p => decide (p.schedulerName = name ∧ p.nodeName = some n))
    if nodePods.isEmpty then
      outerLoop name newPriority allPods rest s
    else
      outerLoop name newPriority allPods rest (innerLoop newPriority n nodePods s)

/-- `_find_preemptible_node` (custom_scheduler.py:78-113): victim selection.
On an `ApiException` from the pod listing the loop body never runs and the
initial `(None, None)` is returned. -/
def findPreemptibleNode (name : String) (newPod : Pod) (nodes : List String)
    (listResp : PyResult (List Pod)) : Option String × Option Pod :=
  let newPriority := getPodPriority newPod
  match listResp with
  | .exn => (none, none)
  | .ok allPods =>
    let s := outerLoop name newPriority allPods nodes (none, none, none)
    (s.1, s.2.1)

/-- `_bind_pod_to_node` (custom_scheduler.py:138-167). The inner handler
catches every exception raised by `create_namespaced_binding` and returns
`True`; the outer `except ApiException` is unreachable because only that
call can raise. Hence the function reports success for every response. -/
def bindPodToNode (resp : BindResp) : Bool :=
  match resp with
  | .ok => true
  | .alreadyBound => true
  | .genuineErr _ => true

/-- `_preempt_pod` (custom_scheduler.py:115-136): request deletion of the
victim; on failure return `False` with counts untouched; on success clamp-
decrement the victim node's count when it is tracked, and return `True`. -/
def preemptPod (deleteResp : PyResult Unit) (victim : Pod)
    (counts : List (String × Int)) : Bool × List (String × Int) :=
  match deleteResp with
  | .exn => (false, counts)
  | .ok _ =>
    match victim.nodeName with
    | some nn =>
      match dictFind counts nn with
      | some v => (true, dictSet counts nn (max 0 (v - 1)))
      | none => (true, counts)
    | none => (true, counts)

/-- Result of one `_schedule_pod` call: the returned boolean, the resulting
count dict, the pod whose deletion was requested (if any), and the node a
binding creation was requested for (if any). -/
structure SchedResult where
  success : Bool
  counts : List (String × Int)
  evictRequested : Option Pod
  bindRequested : Option String
deriving DecidableEq

/-- `_schedule_pod` (custom_scheduler.py:169-213) with the value returned by
`_bind_pod_to_node` abstracted as the argument `bindResult` (the call is
blocking I/O; `schedulePod` below instantiates it from the collaborator
response). Direct placement when a truthy available node exists, else
preemption: evict the selected victim, then bind to the freed node. The
un-guarded `+= 1` updates are `KeyError`-faithful via `dictIncr`. -/
def schedulePodGen (bindResult : Bool) (name : String) (pod : Pod)
    (listResp : PyResult (List Pod)) (deleteResp : PyResult Unit)
    (nodes : List String) (counts : List (String × Int)) :
    PyResult SchedResult :=
  let preemptPath : PyResult SchedResult :=
    match findPreemptibleNode name pod nodes listResp with
    | (some pn, some vp) =>
      if pn = "" then .ok ⟨false, counts, none, none⟩
      else
        match preemptPod deleteResp vp counts with
        | (true, c₁) =>
          if bindResult then
            match dictIncr c₁ pn with
            | .ok c₂ => .ok ⟨true, c₂, some vp, some pn⟩
            | .exn => .exn
          else .ok ⟨false, c₁, some vp, some pn⟩
        | (false, c₁) => .ok ⟨false, c₁, some vp, none⟩
    | _ => .ok ⟨false, counts, none, none⟩
  match findAvailableNode nodes counts with
  | some n =>
    if n = "" then preemptPath
    else
      if bindResult then
        match dictIncr counts n with
        | .ok c₁ => .ok ⟨true, c₁, none, some n⟩
        | .exn => .exn
      else .ok ⟨false, counts, none, some n⟩
  | none => preemptPath

/-- `_schedule_pod` composed with the collaborator responses of `World`:
the bind outcome is whatever `_bind_pod_to_node` makes of the binding
response. -/
def schedulePod (name : String) (pod : Pod) (w : World)
    (nodes : List String) (counts : List (String × Int)) :
    PyResult SchedResult :=
  schedulePodGen (bindPodToNode w.bindResp) name pod w.listResp w.deleteResp
    nodes counts

/-- Counting phase of `_init_node_tracking` (custom_scheduler.py:50-58):
for every listed pod whose scheduler matches and whose node is in the
registry, `node_pod_count[node] += 1` (KeyError-faithful). -/
def countExisting (name : String) (nodes : List String) :
    List Pod → List (String × Int) → PyResult (List (String × Int))
  | [], m => .ok m
  | p :: rest, m =>
    match p.nodeName with
    | some nn =>
      if p.schedulerName = name ∧ nn ∈ nodes then
        match dictFind m nn with
        | some v => countExisting name nodes rest (dictSet m nn (v + 1))
        | none => .exn
      else countExisting name nodes rest m
    | none => countExisting name nodes rest m

/-- `_init_node_tracking` (custom_scheduler.py:44-60): reset every registry
node's count to 0, then count the existing pods from the listing; an
`ApiException` from the listing leaves the zeroed counts. -/
def initNodeTracking (name : String) (nodes : List String)
    (listResp : PyResult (List Pod)) (counts : List (String × Int)) :
    PyResult (List (String × Int)) :=
  let c₀ := nodes.foldl (fun m n => dictSet m n 0) counts
  match listResp with
  | .exn => .ok c₀
  | .ok allPods => countExisting name nodes allPods c₀

/-- One iteration of the watch loop `run` (custom_scheduler.py:223-246):
dispatch on event type, scheduler name and assigned node. The `DELETED`
branch's un-guarded `node_pod_count[node] = max(0, node_pod_count[node]-1)`
raises `KeyError` when the node is untracked. -/
def processEvent (name : String) (nodes : List String)
    (counts : List (String × Int)) (ev : Event) (w : World) :
    PyResult (List (String × Int)) :=
  if ev.pod.schedulerName = name ∧ ev.pod.nodeName = none ∧ ev.type = "ADDED" then
    match schedulePod name ev.pod w nodes counts with
    | .ok r => .ok r.counts
    | .exn => .exn
  else if ev.pod.schedulerName = name ∧ ev.type = "DELETED" ∧ truthy ev.pod.nodeName then
    match ev.pod.nodeName with
    | some nn =>
      match dictFind counts nn with
      | some v => .ok (dictSet counts nn (max 0 (v - 1)))
      | none => .exn
    | none => .ok counts
  else .ok counts

/-- Node-major iteration sequence of victim selection: for each registry
node in order, the listed pods of this scheduler bound to that node, paired
with the node. -/
def candidateSeq (name : String) (allPods : List Pod) :
    List String → List (String × Pod)
  | [] => []
  | n :: rest =>
    (allPods.filter (fun p => decide (p.schedulerName = name ∧ p.nodeName = some n))).map
      (fun p => (n, p)) ++ candidateSeq name allPods rest

/-- A world whose collaborator responses are all benign. -/
def quietWorld : World := ⟨.ok, .ok [], .ok ()⟩

/-- A deleted pod, managed by this scheduler, bound to a node that has no
occupancy counter. -/
def ghostPod : Pod :=
  ⟨"orphan-pod", "default", "custom-scheduler", some "ghost-node", none⟩

/-- A deleted pod of this scheduler bound to tracked node `"n1"`. -/
def deletedPod : Pod :=
  ⟨"bound-pod", "default", "custom-scheduler", some "n1", none⟩

/-- A deleted pod of this scheduler whose node `"n9"` has no counter. -/
def stalePod : Pod :=
  ⟨"stale-pod", "default", "custom-scheduler", some "n9", none⟩

/-- The nested loops of `_find_preemptible_node`, re-expressed over the
flattened node-major `(node, pod)` sequence; same update rule. -/
def selLoop (newPriority : Int) : List (String × Pod) → PreemptSt → PreemptSt
  | [], s => s
  | e :: rest, s =>
    if decide (getPodPriority e.2 < newPriority) && ltInfB (getPodPriority e.2) s.2.2 then
      selLoop newPriority rest (some e.1, some e.2, some (getPodPriority e.2))
    else selLoop newPriority rest s

/-- Fold of `combine the best-so-far with the best of the remainder`:
a later candidate replaces the accumulated best only when strictly lower. -/
def combineSel (s : PreemptSt) : Option (String × Pod) → PreemptSt
  | none => s
  | some f =>
    if ltInfB (getPodPriority f.2) s.2.2 then
      (some f.1, some f.2, some (getPodPriority f.2))
    else s

/-- First candidate of globally lowest priority among entries whose pod
priority is strictly below `P`: an entry survives against later entries
unless one is strictly lower. -/
def pickMin (P : Int) : List (String × Pod) → Option (String × Pod)
  | [] => none
  | e :: rest =>
    if getPodPriority e.2 < P then
      match pickMin P rest with
      | none => some e
      | some f =>
        if getPodPriority f.2 < getPodPriority e.2 then some f else some e
    else pickMin P rest

/-- `pickMin` with the priority threshold already filtered away. -/
def pickMin0 : List (String × Pod) → Option (String × Pod)
  | [] => none
  | e :: rest =>
    match pickMin0 rest with
    | none => some e
    | some f =>
      if getPodPriority f.2 < getPodPriority e.2 then some f else some e

/-- The pending priority-90 pod of the preemption scenario. -/
def newPod90 : Pod :=
  ⟨"pod-new", "default", "custom-scheduler", none,
    some [("scheduler.priority", some 90)]⟩

/-- Bound priority-80 pod on node `"n1"`. -/
def podA80 : Pod :=
  ⟨"pod-a", "default", "custom-scheduler", some "n1",
    some [("scheduler.priority", some 80)]⟩

/-- Bound priority-80 pod on node `"n2"`. -/
def podB80 : Pod :=
  ⟨"pod-b", "default", "custom-scheduler", some "n2",
    some [("scheduler.priority", some 80)]⟩

/-- Bound priority-20 pod on node `"n3"`. -/
def podC20 : Pod :=
  ⟨"pod-c", "default", "custom-scheduler", some "n3",
    some [("scheduler.priority", some 20)]⟩

/-- Collaborator responses for the preemption scenario: binding succeeds,
the listing reports the three bound pods, deletion succeeds. -/
def preemptWorld : World := ⟨.ok, .ok [podA80, podB80, podC20], .ok ()⟩

/-- Bound priority-0 pod on node `"n1"`, the eviction victim of the C2
counterexample. -/
def victimPod0 : Pod :=
  ⟨"victim", "default", "custom-scheduler", some "n1",
    some [("scheduler.priority", some 0)]⟩

/-- Pending priority-5 pod of the C2 counterexample. -/
def newPod5 : Pod :=
  ⟨"pod-five", "default", "custom-scheduler", none,
    some [("scheduler.priority", some 5)]⟩

/-- Every tracked counter lies between 0 and 1. -/
def countsOk (m : List (String × Int)) : Prop :=
  ∀ e ∈ m, 0 ≤ e.2 ∧ e.2 ≤ 1

/-! ## Dictionary lemmas -/

lemma dictFind_dictSet_self {α : Type} (m : List (String × α)) (k : String) (v : α) :
    dictFind (dictSet m k v) k = some v := by
  induction m with
  | nil => simp [dictSet, dictFind]
  | cons e rest ih =>
    obtain ⟨k', v'⟩ := e
    by_cases h : k = k'
    · simp [dictSet, dictFind, h]
    · simp [dictSet, dictFind, h, ih]

lemma dictFind_dictSet_ne {α : Type} (m : List (String × α)) (k k' : String) (v : α)
    (h : k' ≠ k) : dictFind (dictSet m k v) k' = dictFind m k' := by
  induction m with
  | nil => simp [dictSet, dictFind, h]
  | cons e rest ih =>
    obtain ⟨k₀, v₀⟩ := e
    by_cases hk : k = k₀
    · subst hk
      simp [dictSet, dictFind, h]
    · by_cases hk' : k' = k₀ <;> simp [dictSet, dictFind, hk, hk', ih]

lemma dictGetD_dictSet_self {α : Type} (m : List (String × α)) (k : String) (v d : α) :
    dictGetD (dictSet m k v) k d = v := by
  simp [dictGetD, dictFind_dictSet_self]

lemma dictGetD_dictSet_ne {α : Type} (m : List (String × α)) (k k' : String) (v d : α)
    (h : k' ≠ k) : dictGetD (dictSet m k v) k' d = dictGetD m k' d := by
  simp [dictGetD, dictFind_dictSet_ne _ _ _ _ h]

lemma dictFind_mem {α : Type} {m : List (String × α)} {k : String} {v : α}
    (h : dictFind m k = some v) : (k, v) ∈ m := by
  induction m with
  | nil => simp [dictFind] at h
  | cons e rest ih =>
    obtain ⟨k', v'⟩ := e
    by_cases hk : k = k'
    · rw [dictFind, if_pos hk] at h
      obtain rfl : v' = v := by injection h
      subst hk
      exact List.mem_cons_self _ _
    · rw [dictFind, if_neg hk] at h
      exact List.mem_cons_of_mem _ (ih h)

lemma dictFind_eq_getD {m : List (String × Int)} {k : String} {v : Int}
    (h : dictFind m k = some v) : dictGetD m k 0 = v := by
  simp [dictGetD, h]

/-! ## Available-node search -/

lemma findAvailableNode_some {nodes : List String} {counts : List (String × Int)}
    {n : String} (h : findAvailableNode nodes counts = some n) :
    dictGetD counts n 0 = 0 ∧
      ∃ l₁ l₂, nodes = l₁ ++ n :: l₂ ∧ ∀ m ∈ l₁, dictGetD counts m 0 ≠ 0 := by
  induction nodes with
  | nil => simp [findAvailableNode] at h
  | cons a rest ih =>
    by_cases ha : dictGetD counts a 0 = 0
    · rw [findAvailableNode, if_pos ha] at h
      obtain rfl : a = n := by injection h
      exact ⟨ha, [], rest, rfl, by simp⟩
    · rw [findAvailableNode, if_neg ha] at h
      obtain ⟨h0, l₁, l₂, rfl, hall⟩ := ih h
      refine ⟨h0, a :: l₁, l₂, rfl, ?_⟩
      intro m hm
      rcases List.mem_cons.mp hm with rfl | hm
      · exact ha
      · exact hall m hm

lemma findAvailableNode_none {nodes : List String} {counts : List (String × Int)} :
    findAvailableNode nodes counts = none ↔
      ∀ n ∈ nodes, dictGetD counts n 0 ≠ 0 := by
  induction nodes with
  | nil => simp [findAvailableNode]
  | cons a rest ih =>
    by_cases ha : dictGetD counts a 0 = 0 <;>
      simp [findAvailableNode, ha, ih]

/-- C7: `_find_available_node` returns the first node in registry iteration
order whose occupancy counter is 0 (a node with no tracked counter counts as
0, matching `.get(node, 0)`), and returns `none` exactly when every node's
counter is nonzero. -/
theorem claim_C7 (nodes : List String) (counts : List (String × Int)) :
    (findAvailableNode nodes counts = none ↔
      ∀ n ∈ nodes, dictGetD counts n 0 ≠ 0) ∧
    ∀ n, findAvailableNode nodes counts = some n →
      dictGetD counts n 0 = 0 ∧
        ∃ l₁ l₂, nodes = l₁ ++ n :: l₂ ∧ ∀ m ∈ l₁, dictGetD counts m 0 ≠ 0 :=
  ⟨findAvailableNode_none, fun _ h => findAvailableNode_some h⟩

theorem claim_C7_witness :
    dictGetD [("nodeB", (0 : Int))] "nodeB" 0 = 0 :=
  ((claim_C7 ["nodeA", "nodeB"] [("nodeA", 1), ("nodeB", 0)]).2 "nodeB" rfl).1

/-! ## Binding (C1) -/

/-- C1: evaluation of `_bind_pod_to_node` at a failing input. The claim says
a genuine `CreateBinding` error must be reported as failure; the code's
inner handler swallows every exception and returns `True`, so a genuine
error is reported as success. -/
theorem claim_C1 : bindPodToNode (BindResp.genuineErr "node not found") = true := rfl

/-! ## Event dispatch (C6, C8) -/

/-- C8: evaluation of the event loop body at a failing input. A `DELETED`
event for a pod of this scheduler whose node is absent from the occupancy
map raises an uncaught `KeyError` (the un-guarded dict access at
custom_scheduler.py:243), so the loop terminates instead of processing
subsequent events. -/
theorem claim_C8 :
    processEvent "custom-scheduler" ["nodeA"] [("nodeA", (1 : Int))]
      ⟨"DELETED", ghostPod⟩ quietWorld = .exn := by
  decide

/-- C6: event classification, as the code implements it. Scheduling is
invoked exactly on (scheduler matches, assigned node absent, type
`"ADDED"`); on (scheduler matches, type `"DELETED"`, truthy assigned node)
the named node's counter is clamp-decremented when the node is tracked and a
`KeyError` is raised when it is not; every other combination is a no-op. -/
theorem claim_C6 (name : String) (nodes : List String)
    (counts : List (String × Int)) (ev : Event) (w : World) :
    (ev.pod.schedulerName = name ∧ ev.pod.nodeName = none ∧ ev.type = "ADDED" →
      processEvent name nodes counts ev w =
        match schedulePod name ev.pod w nodes counts with
        | .ok r => .ok r.counts
        | .exn => .exn) ∧
    (∀ nn v, ev.pod.schedulerName = name → ev.type = "DELETED" →
      ev.pod.nodeName = some nn → nn ≠ "" → dictFind counts nn = some v →
      processEvent name nodes counts ev w =
        .ok (dictSet counts nn (max 0 (v - 1)))) ∧
    (∀ nn, ev.pod.schedulerName = name → ev.type = "DELETED" →
      ev.pod.nodeName = some nn → nn ≠ "" → dictFind counts nn = none →
      processEvent name nodes counts ev w = .exn) ∧
    (¬(ev.pod.schedulerName = name ∧ ev.pod.nodeName = none ∧ ev.type = "ADDED") →
     ¬(ev.pod.schedulerName = name ∧ ev.type = "DELETED" ∧ truthy ev.pod.nodeName) →
      processEvent name nodes counts ev w = .ok counts) := by
  refine ⟨?_, ?_, ?_, ?_⟩
  · intro h
    rw [processEvent, if_pos h]
  · intro nn v h1 h2 h3 h4 h5
    have hc1 : ¬(ev.pod.schedulerName = name ∧ ev.pod.nodeName = none ∧
        ev.type = "ADDED") := by
      simp [h3]
    have hc2 : ev.pod.schedulerName = name ∧ ev.type = "DELETED" ∧
        truthy ev.pod.nodeName := ⟨h1, h2, by simp [truthy, h3, h4]⟩
    rw [processEvent, if_neg hc1, if_pos hc2]
    simp only [h3, h5]
  · intro nn h1 h2 h3 h4 h5
    have hc1 : ¬(ev.pod.schedulerName = name ∧ ev.pod.nodeName = none ∧
        ev.type = "ADDED") := by
      simp [h3]
    have hc2 : ev.pod.schedulerName = name ∧ ev.type = "DELETED" ∧
        truthy ev.pod.nodeName := ⟨h1, h2, by simp [truthy, h3, h4]⟩
    rw [processEvent, if_neg hc1, if_pos hc2]
    simp only [h3, h5]
  · intro h1 h2
    rw [processEvent, if_neg h1, if_neg h2]

theorem claim_C6_witness :
    processEvent "custom-scheduler" ["n1"] [("n1", (1 : Int))]
      ⟨"DELETED", deletedPod⟩ quietWorld =
      .ok (dictSet [("n1", (1 : Int))] "n1" (max 0 (1 - 1))) :=
  (claim_C6 "custom-scheduler" ["n1"] [("n1", (1 : Int))]
      ⟨"DELETED", deletedPod⟩ quietWorld).2.1 "n1" 1 rfl rfl rfl
    (by decide) (by decide)

/-- C6 counterexample: a `DELETED` event that satisfies the claim's
decrement conditions (scheduler matches, assigned node present) but whose
node has no occupancy counter makes the handler raise `KeyError` instead of
decrementing. -/
theorem claim_C6_counterexample :
    processEvent "custom-scheduler" ["n1"] [("n1", (0 : Int))]
      ⟨"DELETED", stalePod⟩ quietWorld = .exn ∧
    stalePod.schedulerName = "custom-scheduler" ∧
    (⟨"DELETED", stalePod⟩ : Event).type = "DELETED" ∧
    truthy stalePod.nodeName = true := by
  refine ⟨by decide, rfl, rfl, by decide⟩

/-! ## Victim selection: flattened characterization -/

lemma innerLoop_eq_selLoop (P : Int) (n : String) (ps : List Pod) (s : PreemptSt) :
    innerLoop P n ps s = selLoop P (ps.map (fun p => (n, p))) s := by
  induction ps generalizing s with
  | nil => rfl
  | cons p rest ih =>
    rw [List.map_cons, innerLoop, selLoop]
    by_cases h : (decide (getPodPriority p < P) && ltInfB (getPodPriority p) s.2.2) = true
    · rw [if_pos h, if_pos h, ih]
    · rw [if_neg h, if_neg h, ih]

lemma selLoop_append (P : Int) (a b : List (String × Pod)) (s : PreemptSt) :
    selLoop P (a ++ b) s = selLoop P b (selLoop P a s) := by
  induction a generalizing s with
  | nil => rfl
  | cons e rest ih =>
    rw [List.cons_append, selLoop, selLoop]
    by_cases h : (decide (getPodPriority e.2 < P) && ltInfB (getPodPriority e.2) s.2.2) = true
    · rw [if_pos h, if_pos h, ih]
    · rw [if_neg h, if_neg h, ih]

lemma outerLoop_eq_selLoop (name : String) (P : Int) (allPods : List Pod)
    (nodes : List String) (s : PreemptSt) :
    outerLoop name P allPods nodes s =
      selLoop P (candidateSeq name allPods nodes) s := by
  induction nodes generalizing s with
  | nil => rfl
  | cons n rest ih =>
    rw [candidateSeq, selLoop_append]
    simp only [outerLoop]
    by_cases he : (allPods.filter
        (fun p => decide (p.schedulerName = name ∧ p.nodeName = some n))).isEmpty = true
    · rw [if_pos he]
      have hnil : allPods.filter
          (fun p => decide (p.schedulerName = name ∧ p.nodeName = some n)) = [] := by
        simpa using he
      rw [hnil]
      simp only [List.map_nil]
      rw [ih]
      rfl
    · rw [if_neg he, innerLoop_eq_selLoop, ih]

lemma ltInfB_trans {a b : Int} {lo : Option Int} (hab : a < b)
    (h : ltInfB b lo = true) : ltInfB a lo = true := by
  cases lo with
  | none => rfl
  | some v =>
    simp only [ltInfB, decide_eq_true_eq] at h ⊢
    omega

lemma ltInfB_none (x : Int) : ltInfB x none = true := rfl

lemma selLoop_eq_combineSel (P : Int) (l : List (String × Pod)) (s : PreemptSt) :
    selLoop P l s = combineSel s (pickMin P l) := by
  induction l generalizing s with
  | nil => rfl
  | cons e rest ih =>
    rw [selLoop, pickMin]
    by_cases hP : getPodPriority e.2 < P
    · rw [if_pos hP]
      cases hlo : ltInfB (getPodPriority e.2) s.2.2 with
      | true =>
        rw [Bool.and_true, if_pos (show decide (getPodPriority e.2 < P) = true by
          simpa using hP), ih]
        cases hm : pickMin P rest with
        | none => simp [combineSel, hlo]
        | some f =>
          dsimp only
          by_cases hf : getPodPriority f.2 < getPodPriority e.2
          · rw [if_pos hf]
            have h1 : ltInfB (getPodPriority f.2) (some (getPodPriority e.2)) = true := by
              simp [ltInfB, hf]
            have h2 : ltInfB (getPodPriority f.2) s.2.2 = true := ltInfB_trans hf hlo
            simp [combineSel, h1, h2]
          · rw [if_neg hf]
            have h1 : ltInfB (getPodPriority f.2) (some (getPodPriority e.2)) = false := by
              simp only [ltInfB, decide_eq_false_iff_not]
              omega
            simp [combineSel, h1, hlo]
      | false =>
        rw [Bool.and_false, if_neg Bool.false_ne_true, ih]
        cases hm : pickMin P rest with
        | none => simp [combineSel, hlo]
        | some f =>
          dsimp only
          by_cases hf : getPodPriority f.2 < getPodPriority e.2
          · rw [if_pos hf]
          · rw [if_neg hf]
            have hfe : ltInfB (getPodPriority f.2) s.2.2 = false := by
              cases hs : s.2.2 with
              | none => rw [hs] at hlo; simp [ltInfB] at hlo
              | some v =>
                rw [hs] at hlo
                simp only [ltInfB, decide_eq_false_iff_not] at hlo ⊢
                omega
            simp [combineSel, hlo, hfe]
    · have hcond : ¬((decide (getPodPriority e.2 < P) &&
          ltInfB (getPodPriority e.2) s.2.2) = true) := by simp [hP]
      rw [if_neg hcond, if_neg hP, ih]

lemma pickMin_eq_pickMin0 (P : Int) (l : List (String × Pod)) :
    pickMin P l =
      pickMin0 (l.filter (fun e => decide (getPodPriority e.2 < P))) := by
  induction l with
  | nil => rfl
  | cons e rest ih =>
    rw [pickMin, List.filter_cons]
    by_cases hP : getPodPriority e.2 < P
    · rw [if_pos hP, if_pos (by simpa using hP), pickMin0, ih]
    · rw [if_neg hP, if_neg (by simpa using hP), ih]

lemma pickMin0_eq_none {l : List (String × Pod)} :
    pickMin0 l = none ↔ l = [] := by
  cases l with
  | nil => simp [pickMin0]
  | cons e rest =>
    simp only [pickMin0]
    constructor
    · intro h
      exfalso
      cases hm : pickMin0 rest with
      | none => rw [hm] at h; simp at h
      | some f =>
        rw [hm] at h
        dsimp only at h
        by_cases hf : getPodPriority f.2 < getPodPriority e.2
        · rw [if_pos hf] at h; simp at h
        · rw [if_neg hf] at h; simp at h
    · intro h
      simp at h

lemma pickMin0_spec {l : List (String × Pod)} {v : String × Pod}
    (h : pickMin0 l = some v) :
    (∃ l₁ l₂, l = l₁ ++ v :: l₂ ∧
      ∀ c ∈ l₁, getPodPriority v.2 < getPodPriority c.2) ∧
    ∀ c ∈ l, getPodPriority v.2 ≤ getPodPriority c.2 := by
  induction l generalizing v with
  | nil => simp [pickMin0] at h
  | cons e rest ih =>
    rw [pickMin0] at h
    cases hm : pickMin0 rest with
    | none =>
      rw [hm] at h
      obtain rfl : e = v := by injection h
      have hrest : rest = [] := pickMin0_eq_none.mp hm
      subst hrest
      refine ⟨⟨[], [], rfl, by simp⟩, ?_⟩
      intro c hc
      rcases List.mem_cons.mp hc with rfl | hc
      · exact le_refl _
      · simp at hc
    | some f =>
      rw [hm] at h
      dsimp only at h
      by_cases hf : getPodPriority f.2 < getPodPriority e.2
      · rw [if_pos hf] at h
        obtain rfl : f = v := by injection h
        obtain ⟨⟨l₁, l₂, hrest, hl₁⟩, hall⟩ := ih hm
        refine ⟨⟨e :: l₁, l₂, by rw [hrest, List.cons_append], ?_⟩, ?_⟩
        · intro c hc
          rcases List.mem_cons.mp hc with rfl | hc
          · exact hf
          · exact hl₁ c hc
        · intro c hc
          rcases List.mem_cons.mp hc with rfl | hc
          · exact le_of_lt hf
          · exact hall c hc
      · rw [if_neg hf] at h
        obtain rfl : e = v := by injection h
        obtain ⟨_, hall⟩ := ih hm
        refine ⟨⟨[], rest, rfl, by simp⟩, ?_⟩
        intro c hc
        rcases List.mem_cons.mp hc with rfl | hc
        · exact le_refl _
        · exact le_trans (not_lt.mp hf) (hall c hc)

lemma findPreemptibleNode_eq (name : String) (newPod : Pod)
    (nodes : List String) (allPods : List Pod) :
    findPreemptibleNode name newPod nodes (.ok allPods) =
      match pickMin (getPodPriority newPod) (candidateSeq name allPods nodes) with
      | none => (none, none)
      | some v => (some v.1, some v.2) := by
  simp only [findPreemptibleNode]
  rw [outerLoop_eq_selLoop, selLoop_eq_combineSel]
  cases hm : pickMin (getPodPriority newPod) (candidateSeq name allPods nodes) with
  | none => rfl
  | some f => rfl

lemma candidateSeq_mem {name : String} {allPods : List Pod} {nodes : List String}
    {e : String × Pod} (h : e ∈ candidateSeq name allPods nodes) :
    e.2.schedulerName = name ∧ e.2.nodeName = some e.1 ∧
      e.1 ∈ nodes ∧ e.2 ∈ allPods := by
  induction nodes with
  | nil => simp [candidateSeq] at h
  | cons n rest ih =>
    rw [candidateSeq] at h
    rcases List.mem_append.mp h with h | h
    · obtain ⟨p, hp, rfl⟩ := List.mem_map.mp h
      obtain ⟨hpmem, hpred⟩ := List.mem_filter.mp hp
      have hc := of_decide_eq_true hpred
      exact ⟨hc.1, hc.2, List.mem_cons_self _ _, hpmem⟩
    · obtain ⟨h1, h2, h3, h4⟩ := ih h
      exact ⟨h1, h2, List.mem_cons_of_mem _ h3, h4⟩

/-- A selected victim is bound to the selected node, which is a registry
node, and its priority is strictly below the pending pod's. -/
lemma findPreemptibleNode_victim {name : String} {newPod : Pod}
    {nodes : List String} {allPods : List Pod} {pn : String} {vp : Pod}
    (h : findPreemptibleNode name newPod nodes (.ok allPods) = (some pn, some vp)) :
    vp.schedulerName = name ∧ vp.nodeName = some pn ∧ pn ∈ nodes ∧
      getPodPriority vp < getPodPriority newPod := by
  rw [findPreemptibleNode_eq] at h
  cases hm : pickMin (getPodPriority newPod) (candidateSeq name allPods nodes) with
  | none => rw [hm] at h; simp at h
  | some f =>
    rw [hm] at h
    dsimp only at h
    rw [Prod.mk.injEq, Option.some.injEq, Option.some.injEq] at h
    obtain ⟨rfl, rfl⟩ := h
    rw [pickMin_eq_pickMin0] at hm
    obtain ⟨⟨l₁, l₂, heq, -⟩, -⟩ := pickMin0_spec hm
    have hfmem : f ∈ (candidateSeq name allPods nodes).filter
        (fun e => decide (getPodPriority e.2 < getPodPriority newPod)) := by
      rw [heq]
      exact List.mem_append_right _ (List.mem_cons_self _ _)
    obtain ⟨hmem, hpred⟩ := List.mem_filter.mp hfmem
    obtain ⟨h1, h2, h3, -⟩ := candidateSeq_mem hmem
    exact ⟨h1, h2, h3, of_decide_eq_true hpred⟩

/-- C3: victim selection considers exactly the listed pods of this scheduler
bound to a registry node whose priority is strictly below the pending pod's
(the filtered node-major candidate sequence), returns a candidate of
globally lowest priority, breaking ties among equal lowest priorities by the
first candidate in registry iteration order (everything strictly earlier in
the sequence has strictly greater priority), and returns no victim exactly
when no candidate exists. -/
theorem claim_C3 (name : String) (newPod : Pod) (nodes : List String)
    (allPods : List Pod) :
    (findPreemptibleNode name newPod nodes (.ok allPods) = (none, none) ↔
      (candidateSeq name allPods nodes).filter
        (fun e => decide (getPodPriority e.2 < getPodPriority newPod)) = []) ∧
    ∀ pn vp,
      findPreemptibleNode name newPod nodes (.ok allPods) = (some pn, some vp) →
      vp.schedulerName = name ∧ vp.nodeName = some pn ∧ pn ∈ nodes ∧
      getPodPriority vp < getPodPriority newPod ∧
      (∀ e ∈ (candidateSeq name allPods nodes).filter
          (fun e => decide (getPodPriority e.2 < getPodPriority newPod)),
        getPodPriority vp ≤ getPodPriority e.2) ∧
      ∃ l₁ l₂,
        (candidateSeq name allPods nodes).filter
          (fun e => decide (getPodPriority e.2 < getPodPriority newPod)) =
          l₁ ++ (pn, vp) :: l₂ ∧
        ∀ e ∈ l₁, getPodPriority vp < getPodPriority e.2 := by
  constructor
  · rw [findPreemptibleNode_eq, pickMin_eq_pickMin0]
    cases hm : pickMin0 ((candidateSeq name allPods nodes).filter
        (fun e => decide (getPodPriority e.2 < getPodPriority newPod))) with
    | none =>
      have hnil := pickMin0_eq_none.mp hm
      simp [hnil]
    | some f =>
      dsimp only
      constructor
      · intro h
        exact absurd h (by simp)
      · intro h
        rw [h] at hm
        simp [pickMin0] at hm
  · intro pn vp h
    have hv := findPreemptibleNode_victim h
    rw [findPreemptibleNode_eq, pickMin_eq_pickMin0] at h
    cases hm : pickMin0 ((candidateSeq name allPods nodes).filter
        (fun e => decide (getPodPriority e.2 < getPodPriority newPod))) with
    | none => rw [hm] at h; simp at h
    | some f =>
      rw [hm] at h
      dsimp only at h
      rw [Prod.mk.injEq, Option.some.injEq, Option.some.injEq] at h
      obtain ⟨h1, h2⟩ := h
      subst h1
      subst h2
      obtain ⟨⟨l₁, l₂, heq, hl₁⟩, hall⟩ := pickMin0_spec hm
      refine ⟨hv.1, hv.2.1, hv.2.2.1, hv.2.2.2, hall, l₁, l₂, ?_, hl₁⟩
      rw [heq]

theorem claim_C3_witness :
    findPreemptibleNode "custom-scheduler" newPod90 ["n1"] (.ok []) =
      (none, none) :=
  (claim_C3 "custom-scheduler" newPod90 ["n1"] []).1.mpr rfl

/-! ## The concrete preemption scenario (C4) -/

/-- C4: with three nodes each holding one bound pod of priorities 80, 80, 20
and all counters at 1, scheduling the priority-90 pod succeeds, requests the
eviction of exactly the priority-20 pod, requests the binding of the new pod
to that pod's node `"n3"`, leaves every counter at 1, and the bound pods'
priorities afterwards are a permutation of 80, 80, 90. -/
theorem claim_C4 :
    schedulePod "custom-scheduler" newPod90 preemptWorld ["n1", "n2", "n3"]
        [("n1", 1), ("n2", 1), ("n3", 1)] =
      .ok ⟨true, [("n1", (1 : Int)), ("n2", 1), ("n3", 1)],
        some podC20, some "n3"⟩ ∧
    ((([podA80, podB80, podC20].filter (fun p => decide (¬p = podC20))) ++
        [{ newPod90 with nodeName := some "n3" }]).map getPodPriority).Perm
      [80, 80, 90] := by
  exact ⟨by decide, by decide⟩

/-! ## Preemption with a failed listing (C10) -/

/-- C10: when every node is full and the pod listing used by victim
selection fails, `_schedule_pod` returns failure, no eviction and no binding
is requested, and the occupancy map is unchanged. -/
theorem claim_C10 (name : String) (pod : Pod) (w : World)
    (nodes : List String) (counts : List (String × Int))
    (hfull : findAvailableNode nodes counts = none)
    (hlist : w.listResp = .exn) :
    schedulePod name pod w nodes counts = .ok ⟨false, counts, none, none⟩ := by
  rw [schedulePod]
  simp only [schedulePodGen, hfull, hlist, findPreemptibleNode]

theorem claim_C10_witness :
    schedulePod "custom-scheduler" newPod90 ⟨.ok, .exn, .ok ()⟩ ["n1"]
        [("n1", (1 : Int))] =
      .ok ⟨false, [("n1", (1 : Int))], none, none⟩ :=
  claim_C10 "custom-scheduler" newPod90 ⟨.ok, .exn, .ok ()⟩ ["n1"]
    [("n1", (1 : Int))] (by decide) rfl

/-! ## Failed bind (C2) -/

/-- C2 counterexample: when the bind step reports failure on the preemption
path, `_schedule_pod` returns failure, but the occupancy map is NOT
unchanged: the eviction already decremented the victim node's counter from
1 to 0. -/
theorem claim_C2_counterexample :
    schedulePodGen false "custom-scheduler" newPod5 (.ok [victimPod0])
        (.ok ()) ["n1"] [("n1", (1 : Int))] =
      .ok ⟨false, [("n1", (0 : Int))], some victimPod0, some "n1"⟩ ∧
    [("n1", (0 : Int))] ≠ [("n1", (1 : Int))] := by
  exact ⟨by decide, by decide⟩

lemma preemptPod_counts_le (deleteResp : PyResult Unit) (vp : Pod)
    (counts : List (String × Int)) (hnn : ∀ e ∈ counts, 0 ≤ e.2) (k : String) :
    dictGetD (preemptPod deleteResp vp counts).2 k 0 ≤ dictGetD counts k 0 := by
  cases deleteResp with
  | exn => simp [preemptPod]
  | ok a =>
    cases hvn : vp.nodeName with
    | none => simp [preemptPod, hvn]
    | some nn =>
      cases hf : dictFind counts nn with
      | none => simp [preemptPod, hvn, hf]
      | some v =>
        have hv : 0 ≤ v := hnn (nn, v) (dictFind_mem hf)
        simp only [preemptPod, hvn, hf]
        by_cases hk : k = nn
        · subst hk
          rw [dictGetD_dictSet_self, dictFind_eq_getD hf]
          omega
        · rw [dictGetD_dictSet_ne _ _ _ _ _ hk]

/-- C2 (amended): whenever the bind step reports failure, `_schedule_pod`
returns failure and no node's counter is incremented (with nonnegative
counters, every counter is at most its previous value); on the
direct-placement path (a truthy available node) the occupancy map is fully
unchanged. The original claim's "occupancy map unchanged" fails on the
preemption path, where the eviction has already decremented the victim
node's counter (see the counterexample). -/
theorem claim_C2 (name : String) (pod : Pod) (listResp : PyResult (List Pod))
    (deleteResp : PyResult Unit) (nodes : List String)
    (counts : List (String × Int)) (res : SchedResult)
    (hnn : ∀ e ∈ counts, 0 ≤ e.2)
    (h : schedulePodGen false name pod listResp deleteResp nodes counts =
      .ok res) :
    res.success = false ∧
    (∀ k, dictGetD res.counts k 0 ≤ dictGetD counts k 0) ∧
    (truthy (findAvailableNode nodes counts) = true → res.counts = counts) := by
  simp only [schedulePodGen] at h
  cases hfa : findAvailableNode nodes counts with
  | none =>
    rw [hfa] at h
    have htr : truthy (findAvailableNode nodes counts) = false := by
      rw [hfa]; rfl
    cases hfp : findPreemptibleNode name pod nodes listResp with
    | mk o1 o2 =>
      rw [hfp] at h
      cases o1 with
      | none =>
        dsimp only at h
        injection h with h'
        subst h'
        exact ⟨rfl, fun k => le_refl _, fun ht => absurd ht (by simp_all [truthy])⟩
      | some pn =>
        cases o2 with
        | none =>
          dsimp only at h
          injection h with h'
          subst h'
          exact ⟨rfl, fun k => le_refl _, fun ht => absurd ht (by simp_all [truthy])⟩
        | some vp =>
          dsimp only at h
          by_cases hpn : pn = ""
          · rw [if_pos hpn] at h
            injection h with h'
            subst h'
            exact ⟨rfl, fun k => le_refl _, fun ht => absurd ht (by simp_all [truthy])⟩
          · rw [if_neg hpn] at h
            cases hpp : preemptPod deleteResp vp counts with
            | mk b c₁ =>
              rw [hpp] at h
              cases b with
              | true =>
                dsimp only at h
                rw [if_neg Bool.false_ne_true] at h
                injection h with h'
                subst h'
                refine ⟨rfl, ?_, fun ht => absurd ht (by simp_all [truthy])⟩
                intro k
                have hle := preemptPod_counts_le deleteResp vp counts hnn k
                rw [hpp] at hle
                exact hle
              | false =>
                dsimp only at h
                injection h with h'
                subst h'
                refine ⟨rfl, ?_, fun ht => absurd ht (by simp_all [truthy])⟩
                intro k
                have hle := preemptPod_counts_le deleteResp vp counts hnn k
                rw [hpp] at hle
                exact hle
  | some n =>
    rw [hfa] at h
    dsimp only at h
    by_cases hn : n = ""
    · rw [if_pos hn] at h
      have htr : truthy (findAvailableNode nodes counts) = false := by
        rw [hfa, hn]; rfl
      cases hfp : findPreemptibleNode name pod nodes listResp with
      | mk o1 o2 =>
        rw [hfp] at h
        cases o1 with
        | none =>
          dsimp only at h
          injection h with h'
          subst h'
          exact ⟨rfl, fun k => le_refl _, fun ht => absurd ht (by simp_all [truthy])⟩
        | some pn =>
          cases o2 with
          | none =>
            dsimp only at h
            injection h with h'
            subst h'
            exact ⟨rfl, fun k => le_refl _, fun ht => absurd ht (by simp_all [truthy])⟩
          | some vp =>
            dsimp only at h
            by_cases hpn : pn = ""
            · rw [if_pos hpn] at h
              injection h with h'
              subst h'
              exact ⟨rfl, fun k => le_refl _, fun ht => absurd ht (by simp_all [truthy])⟩
            · rw [if_neg hpn] at h
              cases hpp : preemptPod deleteResp vp counts with
              | mk b c₁ =>
                rw [hpp] at h
                cases b with
                | true =>
                  dsimp only at h
                  rw [if_neg Bool.false_ne_true] at h
                  injection h with h'
                  subst h'
                  refine ⟨rfl, ?_, fun ht => absurd ht (by simp_all [truthy])⟩
                  intro k
                  have hle := preemptPod_counts_le deleteResp vp counts hnn k
                  rw [hpp] at hle
                  exact hle
                | false =>
                  dsimp only at h
                  injection h with h'
                  subst h'
                  refine ⟨rfl, ?_, fun ht => absurd ht (by simp_all [truthy])⟩
                  intro k
                  have hle := preemptPod_counts_le deleteResp vp counts hnn k
                  rw [hpp] at hle
                  exact hle
    · rw [if_neg hn] at h
      rw [if_neg Bool.false_ne_true] at h
      injection h with h'
      subst h'
      exact ⟨rfl, fun k => le_refl _, fun _ => rfl⟩

theorem claim_C2_witness :
    SchedResult.counts ⟨false, [("a", (0 : Int))], none, some "a"⟩ =
      [("a", (0 : Int))] :=
  (claim_C2 "s" newPod5 (.ok []) (.ok ()) ["a"] [("a", (0 : Int))]
      ⟨false, [("a", (0 : Int))], none, some "a"⟩ (by decide)
      (by decide)).2.2 (by decide)

/-! ## Occupancy invariant (C5) -/

lemma countsOk_dictSet {m : List (String × Int)} {k : String} {v : Int}
    (hc : countsOk m) (h0 : 0 ≤ v) (h1 : v ≤ 1) : countsOk (dictSet m k v) := by
  induction m with
  | nil =>
    intro e he
    simp only [dictSet, List.mem_singleton] at he
    subst he
    exact ⟨h0, h1⟩
  | cons e₀ rest ih =>
    obtain ⟨k', v'⟩ := e₀
    intro e he
    rw [dictSet] at he
    by_cases hk : k = k'
    · rw [if_pos hk] at he
      rcases List.mem_cons.mp he with rfl | he
      · exact ⟨h0, h1⟩
      · exact hc e (List.mem_cons_of_mem _ he)
    · rw [if_neg hk] at he
      rcases List.mem_cons.mp he with rfl | he
      · exact hc _ (List.mem_cons_self _ _)
      · exact ih (fun e' he' => hc e' (List.mem_cons_of_mem _ he')) e he

lemma countsOk_getD {m : List (String × Int)} (hc : countsOk m) (k : String) :
    0 ≤ dictGetD m k 0 ∧ dictGetD m k 0 ≤ 1 := by
  rw [dictGetD]
  cases hf : dictFind m k with
  | none => simp
  | some v => simpa using hc (k, v) (dictFind_mem hf)

lemma dictIncr_ok {m m' : List (String × Int)} {k : String}
    (h : dictIncr m k = .ok m') :
    ∃ v, dictFind m k = some v ∧ m' = dictSet m k (v + 1) := by
  rw [dictIncr] at h
  cases hf : dictFind m k with
  | some v =>
    rw [hf] at h
    dsimp only at h
    injection h with h'
    exact ⟨v, rfl, h'.symm⟩
  | none =>
    rw [hf] at h
    exact PyResult.noConfusion h

lemma preemptPod_false {dr : PyResult Unit} {vp : Pod}
    {counts c₁ : List (String × Int)}
    (h : preemptPod dr vp counts = (false, c₁)) : c₁ = counts := by
  cases dr with
  | exn =>
    simp only [preemptPod, Prod.mk.injEq] at h
    exact h.2.symm
  | ok a =>
    exfalso
    cases hvn : vp.nodeName with
    | none => simp [preemptPod, hvn] at h
    | some nn =>
      cases hf : dictFind counts nn with
      | none => simp [preemptPod, hvn, hf] at h
      | some v => simp [preemptPod, hvn, hf] at h

lemma preemptPod_preserves (dr : PyResult Unit) (vp : Pod)
    (counts : List (String × Int)) (hc : countsOk counts) :
    countsOk (preemptPod dr vp counts).2 := by
  cases dr with
  | exn => exact hc
  | ok a =>
    cases hvn : vp.nodeName with
    | none => simpa [preemptPod, hvn] using hc
    | some nn =>
      cases hf : dictFind counts nn with
      | none => simpa [preemptPod, hvn, hf] using hc
      | some v =>
        simp only [preemptPod, hvn, hf]
        obtain ⟨hv0, hv1⟩ := hc (nn, v) (dictFind_mem hf)
        exact countsOk_dictSet hc (le_max_left _ _) (max_le (by norm_num) (by omega))

lemma preemptPod_true_findPn {dr : PyResult Unit} {vp : Pod}
    {counts c₁ : List (String × Int)} {pn : String} {w : Int}
    (hvn : vp.nodeName = some pn)
    (h : preemptPod dr vp counts = (true, c₁))
    (hw : dictFind c₁ pn = some w) (hc : countsOk counts) :
    0 ≤ w ∧ w ≤ 0 := by
  cases dr with
  | exn => simp [preemptPod] at h
  | ok a =>
    simp only [preemptPod] at h
    rw [hvn] at h
    dsimp only at h
    cases hf : dictFind counts pn with
    | none =>
      rw [hf] at h
      dsimp only at h
      injection h with h1 h2
      rw [← h2, hf] at hw
      exact Option.noConfusion hw
    | some v =>
      rw [hf] at h
      dsimp only at h
      injection h with h1 h2
      rw [← h2, dictFind_dictSet_self] at hw
      obtain rfl : max 0 (v - 1) = w := by injection hw
      obtain ⟨hv0, hv1⟩ := hc (pn, v) (dictFind_mem hf)
      constructor
      · exact le_max_left _ _
      · exact max_le (by norm_num) (by omega)

lemma schedulePodGen_preserves (b : Bool) (name : String) (pod : Pod)
    (listResp : PyResult (List Pod)) (deleteResp : PyResult Unit)
    (nodes : List String) (counts : List (String × Int)) (res : SchedResult)
    (hc : countsOk counts)
    (h : schedulePodGen b name pod listResp deleteResp nodes counts = .ok res) :
    countsOk res.counts := by
  have hpre : ∀ (h' : ((match findPreemptibleNode name pod nodes listResp with
      | (some pn, some vp) =>
        if pn = "" then .ok ⟨false, counts, none, none⟩
        else
          match preemptPod deleteResp vp counts with
          | (true, c₁) =>
            if b then
              match dictIncr c₁ pn with
              | .ok c₂ => .ok ⟨true, c₂, some vp, some pn⟩
              | .exn => .exn
            else .ok ⟨false, c₁, some vp, some pn⟩
          | (false, c₁) => .ok ⟨false, c₁, some vp, none⟩
      | _ => .ok ⟨false, counts, none, none⟩ : PyResult SchedResult)) = .ok res),
      countsOk res.counts := by
    intro h'
    cases hfp : findPreemptibleNode name pod nodes listResp with
    | mk o1 o2 =>
      rw [hfp] at h'
      cases o1 with
      | none =>
        dsimp only at h'
        injection h' with he
        subst he
        exact hc
      | some pn =>
        cases o2 with
        | none =>
          dsimp only at h'
          injection h' with he
          subst he
          exact hc
        | some vp =>
          dsimp only at h'
          by_cases hpn : pn = ""
          · rw [if_pos hpn] at h'
            injection h' with he
            subst he
            exact hc
          · rw [if_neg hpn] at h'
            have hvnp : vp.nodeName = some pn := by
              cases listResp with
              | exn =>
                rw [findPreemptibleNode] at hfp
                simp at hfp
              | ok allPods => exact (findPreemptibleNode_victim hfp).2.1
            cases hpp : preemptPod deleteResp vp counts with
            | mk pb c₁ =>
              rw [hpp] at h'
              cases pb with
              | false =>
                dsimp only at h'
                injection h' with he
                subst he
                exact (preemptPod_false hpp) ▸ hc
              | true =>
                dsimp only at h'
                have hc₁ : countsOk c₁ := by
                  have hp := preemptPod_preserves deleteResp vp counts hc
                  rw [hpp] at hp
                  exact hp
                cases b with
                | false =>
                  rw [if_neg Bool.false_ne_true] at h'
                  injection h' with he
                  subst he
                  exact hc₁
                | true =>
                  rw [if_pos rfl] at h'
                  cases hinc : dictIncr c₁ pn with
                  | exn =>
                    rw [hinc] at h'
                    exact PyResult.noConfusion h'
                  | ok c₂ =>
                    rw [hinc] at h'
                    dsimp only at h'
                    injection h' with he
                    subst he
                    obtain ⟨w, hw, hset⟩ := dictIncr_ok hinc
                    obtain ⟨hw0, hw1⟩ := preemptPod_true_findPn hvnp hpp hw hc
                    subst hset
                    exact countsOk_dictSet hc₁ (by omega) (by omega)
  simp only [schedulePodGen] at h
  cases hfa : findAvailableNode nodes counts with
  | none =>
    rw [hfa] at h
    exact hpre h
  | some n =>
    rw [hfa] at h
    dsimp only at h
    by_cases hn : n = ""
    · rw [if_pos hn] at h
      exact hpre h
    · rw [if_neg hn] at h
      cases b with
      | false =>
        rw [if_neg Bool.false_ne_true] at h
        injection h with he
        subst he
        exact hc
      | true =>
        rw [if_pos rfl] at h
        cases hinc : dictIncr counts n with
        | exn =>
          rw [hinc] at h
          exact PyResult.noConfusion h
        | ok c₁ =>
          rw [hinc] at h
          dsimp only at h
          injection h with he
          subst he
          obtain ⟨v, hf, hset⟩ := dictIncr_ok hinc
          have hv0 : dictGetD counts n 0 = 0 := (findAvailableNode_some hfa).1
          have hv : v = 0 := by
            rw [dictFind_eq_getD hf] at hv0
            exact hv0
          subst hset
          exact countsOk_dictSet hc (by omega) (by omega)

/-- C5: if every tracked counter is between 0 and 1 before an event, then
after the event is fully processed (the loop body returns normally) every
tracked counter is again between 0 and 1, and every node's looked-up
occupancy (`.get(node, 0)`) is 0 or 1: increments only hit a counter that is
0 (a free node on direct placement, the just-clamped-to-0 victim node after
eviction), and deletion decrements are clamped at zero. -/
theorem claim_C5 (name : String) (nodes : List String)
    (counts : List (String × Int)) (ev : Event) (w : World)
    (counts' : List (String × Int)) (hc : countsOk counts)
    (h : processEvent name nodes counts ev w = .ok counts') :
    countsOk counts' ∧
      ∀ k, 0 ≤ dictGetD counts' k 0 ∧ dictGetD counts' k 0 ≤ 1 := by
  have hok : countsOk counts' := by
    rw [processEvent] at h
    by_cases h1 : ev.pod.schedulerName = name ∧ ev.pod.nodeName = none ∧
        ev.type = "ADDED"
    · rw [if_pos h1] at h
      cases hs : schedulePod name ev.pod w nodes counts with
      | exn => rw [hs] at h; exact PyResult.noConfusion h
      | ok r =>
        rw [hs] at h
        dsimp only at h
        injection h with h'
        subst h'
        rw [schedulePod] at hs
        exact schedulePodGen_preserves _ _ _ _ _ _ _ _ hc hs
    · rw [if_neg h1] at h
      by_cases h2 : ev.pod.schedulerName = name ∧ ev.type = "DELETED" ∧
          truthy ev.pod.nodeName
      · rw [if_pos h2] at h
        cases hvn : ev.pod.nodeName with
        | none =>
          rw [hvn] at h
          dsimp only at h
          injection h with h'
          subst h'
          exact hc
        | some nn =>
          rw [hvn] at h
          dsimp only at h
          cases hf : dictFind counts nn with
          | none => rw [hf] at h; exact PyResult.noConfusion h
          | some v =>
            rw [hf] at h
            dsimp only at h
            injection h with h'
            subst h'
            obtain ⟨hv0, hv1⟩ := hc (nn, v) (dictFind_mem hf)
            exact countsOk_dictSet hc (le_max_left _ _)
              (max_le (by norm_num) (by omega))
      · rw [if_neg h2] at h
        injection h with h'
        subst h'
        exact hc
  exact ⟨hok, fun k => countsOk_getD hok k⟩

theorem claim_C5_witness :
    0 ≤ dictGetD [("n1", (1 : Int))] "n1" 0 ∧
      dictGetD [("n1", (1 : Int))] "n1" 0 ≤ 1 :=
  (claim_C5 "custom-scheduler" ["n1"] [("n1", (0 : Int))] ⟨"ADDED", newPod5⟩
      quietWorld [("n1", (1 : Int))] (by unfold countsOk; decide)
      (by decide)).2 "n1"

/-! ## Startup sync idempotence (C9) -/

lemma reset_dictFind (nodes : List String) (c : List (String × Int))
    (k : String) :
    dictFind (nodes.foldl (fun m n => dictSet m n 0) c) k =
      if k ∈ nodes then some 0 else dictFind c k := by
  induction nodes generalizing c with
  | nil => simp
  | cons n rest ih =>
    rw [List.foldl_cons, ih]
    by_cases hk : k ∈ rest
    · simp [hk]
    · by_cases hkn : k = n
      · subst hkn
        simp [hk, dictFind_dictSet_self]
      · simp [hk, hkn, dictFind_dictSet_ne c n k 0 hkn]

lemma countExisting_find_notin (name : String) (nodes : List String) :
    ∀ (pods : List Pod) (m m' : List (String × Int)),
      countExisting name nodes pods m = .ok m' →
      ∀ k, k ∉ nodes → dictFind m' k = dictFind m k := by
  intro pods
  induction pods with
  | nil =>
    intro m m' h k hk
    injection h with h'
    subst h'
    rfl
  | cons p rest ih =>
    intro m m' h k hk
    simp only [countExisting] at h
    cases hvn : p.nodeName with
    | none =>
      rw [hvn] at h
      dsimp only at h
      exact ih m m' h k hk
    | some nn =>
      rw [hvn] at h
      dsimp only at h
      by_cases hcond : p.schedulerName = name ∧ nn ∈ nodes
      · rw [if_pos hcond] at h
        cases hf : dictFind m nn with
        | none =>
          rw [hf] at h
          exact PyResult.noConfusion h
        | some v =>
          rw [hf] at h
          dsimp only at h
          have hstep := ih _ _ h k hk
          have hne : k ≠ nn := fun he => hk (he ▸ hcond.2)
          rw [hstep, dictFind_dictSet_ne m nn k (v + 1) hne]
      · rw [if_neg hcond] at h
        exact ih _ _ h k hk

lemma dictFind_dictSet_congr {m₁ m₂ : List (String × Int)}
    (h : ∀ k, dictFind m₁ k = dictFind m₂ k) (kk : String) (v : Int) :
    ∀ k, dictFind (dictSet m₁ kk v) k = dictFind (dictSet m₂ kk v) k := by
  intro k
  by_cases hk : k = kk
  · subst hk
    rw [dictFind_dictSet_self, dictFind_dictSet_self]
  · rw [dictFind_dictSet_ne _ _ _ _ hk, dictFind_dictSet_ne _ _ _ _ hk, h]

lemma countExisting_congr (name : String) (nodes : List String) :
    ∀ (pods : List Pod) (m₁ m₂ : List (String × Int)),
      (∀ k, dictFind m₁ k = dictFind m₂ k) →
      (countExisting name nodes pods m₁ = .exn ∧
        countExisting name nodes pods m₂ = .exn) ∨
      (∃ m₁' m₂', countExisting name nodes pods m₁ = .ok m₁' ∧
        countExisting name nodes pods m₂ = .ok m₂' ∧
        ∀ k, dictFind m₁' k = dictFind m₂' k) := by
  intro pods
  induction pods with
  | nil =>
    intro m₁ m₂ hpt
    right
    exact ⟨m₁, m₂, rfl, rfl, hpt⟩
  | cons p rest ih =>
    intro m₁ m₂ hpt
    cases hvn : p.nodeName with
    | none =>
      have e₁ : countExisting name nodes (p :: rest) m₁ =
          countExisting name nodes rest m₁ := by
        simp only [countExisting, hvn]
      have e₂ : countExisting name nodes (p :: rest) m₂ =
          countExisting name nodes rest m₂ := by
        simp only [countExisting, hvn]
      rw [e₁, e₂]
      exact ih m₁ m₂ hpt
    | some nn =>
      by_cases hcond : p.schedulerName = name ∧ nn ∈ nodes
      · cases hf₁ : dictFind m₁ nn with
        | none =>
          have hf₂ : dictFind m₂ nn = none := (hpt nn).symm.trans hf₁
          left
          constructor
          · simp only [countExisting, hvn]
            rw [if_pos hcond, hf₁]
          · simp only [countExisting, hvn]
            rw [if_pos hcond, hf₂]
        | some v =>
          have hf₂ : dictFind m₂ nn = some v := (hpt nn).symm.trans hf₁
          have e₁ : countExisting name nodes (p :: rest) m₁ =
              countExisting name nodes rest (dictSet m₁ nn (v + 1)) := by
            simp only [countExisting, hvn]
            rw [if_pos hcond, hf₁]
          have e₂ : countExisting name nodes (p :: rest) m₂ =
              countExisting name nodes rest (dictSet m₂ nn (v + 1)) := by
            simp only [countExisting, hvn]
            rw [if_pos hcond, hf₂]
          rw [e₁, e₂]
          exact ih _ _ (dictFind_dictSet_congr hpt nn (v + 1))
      · have e₁ : countExisting name nodes (p :: rest) m₁ =
            countExisting name nodes rest m₁ := by
          simp only [countExisting, hvn]
          rw [if_neg hcond]
        have e₂ : countExisting name nodes (p :: rest) m₂ =
            countExisting name nodes rest m₂ := by
          simp only [countExisting, hvn]
          rw [if_neg hcond]
        rw [e₁, e₂]
        exact ih m₁ m₂ hpt

/-- C9: running the startup occupancy sync twice against the same node set
and the same unit listing yields exactly the same occupancy counters as
running it once (pointwise equality of the count dict). -/
theorem claim_C9 (name : String) (nodes : List String)
    (listResp : PyResult (List Pod)) (counts c₁ c₂ : List (String × Int))
    (h1 : initNodeTracking name nodes listResp counts = .ok c₁)
    (h2 : initNodeTracking name nodes listResp c₁ = .ok c₂) :
    ∀ k, dictFind c₂ k = dictFind c₁ k := by
  have hout : ∀ k, k ∉ nodes → dictFind c₁ k = dictFind counts k := by
    intro k hk
    cases listResp with
    | exn =>
      simp only [initNodeTracking] at h1
      injection h1 with h'
      subst h'
      rw [reset_dictFind]
      simp [hk]
    | ok allPods =>
      simp only [initNodeTracking] at h1
      have hni := countExisting_find_notin name nodes allPods _ _ h1 k hk
      rw [hni, reset_dictFind]
      simp [hk]
  have hresets : ∀ k,
      dictFind (nodes.foldl (fun m n => dictSet m n 0) c₁) k =
        dictFind (nodes.foldl (fun m n => dictSet m n 0) counts) k := by
    intro k
    rw [reset_dictFind, reset_dictFind]
    by_cases hk : k ∈ nodes
    · simp [hk]
    · simp [hk, hout k hk]
  cases listResp with
  | exn =>
    simp only [initNodeTracking] at h1 h2
    injection h1 with e1
    injection h2 with e2
    intro k
    rw [← e2, hresets k, e1]
  | ok allPods =>
    simp only [initNodeTracking] at h1 h2
    rcases countExisting_congr name nodes allPods _ _ hresets with
      ⟨hx, hy⟩ | ⟨m₁', m₂', e1, e2, hpt⟩
    · exact PyResult.noConfusion (h2.symm.trans hx)
    · have hm1 : m₁' = c₂ := by injection e1.symm.trans h2
      have hm2 : m₂' = c₁ := by injection e2.symm.trans h1
      subst hm1
      subst hm2
      exact hpt

theorem claim_C9_witness :
    dictFind [("n1", (1 : Int))] "n1" = dictFind [("n1", (1 : Int))] "n1" :=
  claim_C9 "custom-scheduler" ["n1"] (.ok [podA80]) [] [("n1", 1)]
    [("n1", 1)] (by decide) (by decide) "n1"
